import Mathlib

set_option maxHeartbeats 1000000

namespace Pixprint

/-- An RGBA pixel with byte channels, as produced by `image::Rgba<u8>`
(`p.0[0]` = r, `p.0[1]` = g, `p.0[2]` = b, `p.0[3]` = a). -/
structure Rgba where
  r : Nat
  g : Nat
  b : Nat
  a : Nat
deriving DecidableEq

/-- The only `hanbun::Color` constructor the program builds is `Color::Rgb`,
so a color is modelled by its three channels. -/
structure Color where
  r : Nat
  g : Nat
  b : Nat
deriving DecidableEq

/-- One terminal cell, mirroring `hanbun::Cell`: an optional glyph char, an
optional glyph color and the two half-block color slots, each a two-level
optional. -/
structure Cell where
  char : Option Char
  char_color : Option Color
  upper_block : Option (Option Color)
  lower_block : Option (Option Color)
deriving DecidableEq

/-- A decoded RGBA image: dimensions plus a total pixel grid function (the
program reads pixels only through `get_pixel_checked`, so values outside the
bounds are never observed). -/
structure Image where
  width : Nat
  height : Nat
  pix : Nat → Nat → Rgba

/-- `RgbaImage::get_pixel_checked`: `some` pixel inside the bounds, `none`
outside. -/
def get_pixel_checked (img : Image) (x y : Nat) : Option Rgba :=
  if x < img.width ∧ y < img.height then some (img.pix x y) else none

/-- `pixel_to_cell_color` from `src/main.rs`: `and_then` over the optional
pixel; alpha 255 yields `some (some rgb)`, any other alpha yields `none`
(the `and_then` closure returns `None` there). -/
def pixel_to_cell_color (pixel_opt : Option Rgba) : Option (Option Color) :=
  match pixel_opt with
  | none => none
  | some p => if p.a = 255 then some (some ⟨p.r, p.g, p.b⟩) else none

/-- A padding tuple `(top, right, bottom, left)` as produced by
`parse_padding`. -/
abbrev Pad4 := Nat × Nat × Nat × Nat

/-- `hanbun::Buffer`: width, height and the row-major cell vector. -/
structure Buffer where
  width : Nat
  height : Nat
  cells : List Cell
deriving DecidableEq

/-- `hanbun::Buffer::new(width, height, char)`: `width * height` cells, each
starting as the given char with no colors and no block halves. -/
def Buffer.new (width height : Nat) (c : Char) : Buffer :=
  ⟨width, height, List.replicate (width * height) ⟨some c, none, none, none⟩⟩

/-- Canvas width in `draw`: `width += left + right` when padding is given. -/
def padded_width (w : Nat) : Option Pad4 → Nat
  | some (_, r, _, l) => w + l + r
  | none => w

/-- Canvas height in `draw`: `height += top + bottom` when padding is given. -/
def padded_height (h : Nat) : Option Pad4 → Nat
  | some (t, _, b, _) => h + t + b
  | none => h

/-- The pixel-pair selection in `draw`'s loop body: the padding guard
(`y * 2 < top || y * 2 >= height - bottom || x < left || x >= width - right`)
and the two `get_pixel_checked` lookups, or the unpadded lookups.  Nat
subtraction here matches the in-range behavior of the `u32` subtractions;
the guard keeps them from underflowing (settled by the safety claim). -/
def sample_pair (img : Image) (padding : Option Pad4) (width height x y : Nat) :
    Option Rgba × Option Rgba :=
  match padding with
  | some (top, right, bottom, left) =>
    if y * 2 < top ∨ y * 2 ≥ height - bottom ∨ x < left ∨ x ≥ width - right then
      (none, none)
    else
      (get_pixel_checked img (x - left) (y * 2 - top),
       get_pixel_checked img (x - left) (y * 2 + 1 - top))
  | none =>
    (get_pixel_checked img x (y * 2), get_pixel_checked img x (y * 2 + 1))

/-- Unfolding `sample_pair` in the padded case. -/
lemma sample_pair_some (img : Image) (t r b l width height x y : Nat) :
    sample_pair img (some (t, r, b, l)) width height x y =
      if y * 2 < t ∨ y * 2 ≥ height - b ∨ x < l ∨ x ≥ width - r then
        (none, none)
      else
        (get_pixel_checked img (x - l) (y * 2 - t),
         get_pixel_checked img (x - l) (y * 2 + 1 - t)) := rfl

/-- Unfolding `sample_pair` in the unpadded case. -/
lemma sample_pair_none (img : Image) (width height x y : Nat) :
    sample_pair img none width height x y =
      (get_pixel_checked img x (y * 2), get_pixel_checked img x (y * 2 + 1)) := rfl

/-- The cell stored by `draw`'s loop body at `(x, y)`. -/
def draw_cell (img : Image) (padding : Option Pad4) (width height x y : Nat) : Cell :=
  let pair := sample_pair img padding width height x y
  { char := some ' ', char_color := none,
    upper_block := pixel_to_cell_color pair.1,
    lower_block := pixel_to_cell_color pair.2 }

/-- The nested pixel loop of `draw`: rows `y` in `[0, rows)`, columns `x` in
`[0, width)`, the `buffer.cells[(y * width) + x] = …` store becoming a
`List.set` (like the `Vec` store, it changes exactly that position). -/
def draw_loop (img : Image) (padding : Option Pad4) (width height rows : Nat)
    (cs : List Cell) : List Cell :=
  (List.range rows).foldl (fun cs y =>
    (List.range width).foldl (fun cs x =>
      cs.set (y * width + x) (draw_cell img padding width height x y)) cs) cs

/-- `draw` from `src/main.rs`, up to the external terminal paint call
(`buffer.draw()` returns no data): compute the padded canvas, allocate the
buffer and run the nested loop. -/
def draw (img : Image) (padding : Option Pad4) : Buffer :=
  let width := padded_width img.width padding
  let height := padded_height img.height padding
  let buffer := Buffer.new width (height / 2) ' '
  { buffer with cells := draw_loop img padding width height (height / 2) buffer.cells }

/-- A fold that only `List.set`s leaves the length unchanged. -/
lemma foldl_set_length (g : Nat → Nat) (f : Nat → Cell) (l : List Nat) :
    ∀ cs : List Cell,
      (l.foldl (fun cs x => cs.set (g x) (f x)) cs).length = cs.length := by
  induction l with
  | nil => intro cs; rfl
  | cons a t ih =>
    intro cs
    simp only [List.foldl_cons]
    rw [ih]
    exact List.length_set ..

/-- One row of writes at base index `base`: positions `base + x` for
`x < w` receive `f x`; every other position keeps its previous value. -/
lemma foldl_set_get_row (f : Nat → Cell) (base : Nat) :
    ∀ (w : Nat) (cs : List Cell) (i : Nat), base + w ≤ cs.length →
      ((List.range w).foldl (fun cs x => cs.set (base + x) (f x)) cs)[i]? =
        if base ≤ i ∧ i < base + w then some (f (i - base)) else cs[i]? := by
  intro w
  induction w with
  | zero =>
    intro cs i h
    rw [if_neg (by omega)]
    rfl
  | succ n ih =>
    intro cs i h
    rw [List.range_succ, List.foldl_append]
    simp only [List.foldl_cons, List.foldl_nil]
    rw [List.getElem?_set]
    have hlen :
        ((List.range n).foldl (fun cs x => cs.set (base + x) (f x)) cs).length =
          cs.length := foldl_set_length _ _ _ _
    by_cases e : base + n = i
    · rw [if_pos e, if_pos (by omega), if_pos (by omega)]
      have exn : i - base = n := by omega
      rw [exn]
    · rw [if_neg e, ih cs i (by omega)]
      by_cases c : base ≤ i ∧ i < base + n
      · rw [if_pos c, if_pos (by omega)]
      · rw [if_neg c, if_neg (by omega)]

/-- Unfolding one outer iteration of `draw_loop`. -/
lemma draw_loop_succ (img : Image) (padding : Option Pad4)
    (width height n : Nat) (cs : List Cell) :
    draw_loop img padding width height (n + 1) cs =
      (List.range width).foldl (fun cs x =>
        cs.set (n * width + x) (draw_cell img padding width height x n))
        (draw_loop img padding width height n cs) := by
  unfold draw_loop
  rw [List.range_succ, List.foldl_append]
  simp only [List.foldl_cons, List.foldl_nil]

/-- `draw_loop` leaves the length unchanged. -/
lemma draw_loop_length (img : Image) (padding : Option Pad4) (width height : Nat) :
    ∀ (rows : Nat) (cs : List Cell),
      (draw_loop img padding width height rows cs).length = cs.length := by
  intro rows
  induction rows with
  | zero => intro cs; rfl
  | succ n ih =>
    intro cs
    rw [draw_loop_succ]
    rw [foldl_set_length (fun x => n * width + x)
      (fun x => draw_cell img padding width height x n)]
    exact ih cs

/-- After `draw_loop`, position `y * width + x` holds the cell computed for
`(x, y)`, for every in-range `(x, y)`. -/
lemma draw_loop_get (img : Image) (padding : Option Pad4) (width height : Nat) :
    ∀ (rows : Nat) (cs : List Cell), rows * width ≤ cs.length →
      ∀ x y, x < width → y < rows →
        (draw_loop img padding width height rows cs)[y * width + x]? =
          some (draw_cell img padding width height x y) := by
  intro rows
  induction rows with
  | zero => intro cs h x y hx hy; omega
  | succ n ih =>
    intro cs h x y hx hy
    rw [draw_loop_succ]
    have hlen : (draw_loop img padding width height n cs).length = cs.length :=
      draw_loop_length img padding width height n cs
    have hstep : (n + 1) * width ≤ cs.length := by
      calc (n + 1) * width ≤ (n + 1) * width := le_rfl
        _ ≤ cs.length := h
    have hrow := foldl_set_get_row (fun x => draw_cell img padding width height x n)
      (n * width) width (draw_loop img padding width height n cs) (y * width + x)
      (by rw [hlen]
          calc n * width + width = (n + 1) * width := by ring
            _ ≤ cs.length := hstep)
    by_cases e : y = n
    · subst e
      rw [hrow, if_pos (by omega)]
      have exn : y * width + x - y * width = x := by omega
      rw [exn]
    · have hy2 : y < n := by omega
      have hlt : y * width + x < n * width := by
        calc y * width + x < y * width + width := by omega
          _ = (y + 1) * width := by ring
          _ ≤ n * width := Nat.mul_le_mul_right _ (by omega)
      rw [hrow, if_neg (by omega)]
      exact ih cs (by calc n * width ≤ (n + 1) * width :=
                        Nat.mul_le_mul_right _ (by omega)
                      _ ≤ cs.length := hstep) x y hx hy2

/-- The length of `draw`'s cell buffer. -/
lemma draw_cells_length (img : Image) (padding : Option Pad4) :
    (draw img padding).cells.length =
      padded_width img.width padding * (padded_height img.height padding / 2) := by
  show (draw_loop img padding _ _ _ _).length = _
  rw [draw_loop_length]
  simp [Buffer.new]

/-- The cell of `draw`'s buffer at index `y * width + x`. -/
lemma draw_get (img : Image) (padding : Option Pad4) (x y : Nat)
    (hx : x < padded_width img.width padding)
    (hy : y < padded_height img.height padding / 2) :
    (draw img padding).cells[y * padded_width img.width padding + x]? =
      some (draw_cell img padding (padded_width img.width padding)
        (padded_height img.height padding) x y) := by
  show (draw_loop img padding _ _ _ _)[_]? = _
  apply draw_loop_get
  · simp [Buffer.new, Nat.mul_comm]
  · exact hx
  · exact hy

/-- Claim C1, counterexample: a pixel with alpha 254 (the spec's own
example value) classifies as outer-absent (`none`), not as outer-present
with inner-blank (`some none`). -/
theorem C1_counterexample :
    pixel_to_cell_color (some ⟨10, 20, 30, 254⟩) = none ∧
    pixel_to_cell_color (some ⟨10, 20, 30, 254⟩) ≠ some none := by
  decide

/-- Claim C1 (amended): no pixel classifies as outer-absent; an alpha-255
pixel classifies as outer-present with its RGB color; a pixel with alpha
in `[0, 255)` also classifies as outer-absent (`none`) — identical to the
no-pixel case, not as outer-present with inner-blank. -/
theorem C1_pixel_classifier (r g b a : Nat) :
    pixel_to_cell_color none = none ∧
    (a = 255 → pixel_to_cell_color (some ⟨r, g, b, a⟩) = some (some ⟨r, g, b⟩)) ∧
    (a < 255 → pixel_to_cell_color (some ⟨r, g, b, a⟩) = none) := by
  refine ⟨rfl, ?_, ?_⟩
  · intro h
    simp [pixel_to_cell_color, h]
  · intro h
    simp [pixel_to_cell_color]
    omega

/-- Witness for claim C1's amended theorem at concrete pixels. -/
theorem C1_pixel_classifier_witness :
    pixel_to_cell_color (some ⟨10, 20, 30, 255⟩) = some (some ⟨10, 20, 30⟩) ∧
    pixel_to_cell_color (some ⟨10, 20, 30, 0⟩) = none :=
  ⟨(C1_pixel_classifier 10 20 30 255).2.1 rfl,
   (C1_pixel_classifier 10 20 30 0).2.2 (by decide)⟩

/-- A concrete 2×2 opaque image used in closed instances. -/
def demo2 : Image := ⟨2, 2, fun x y => ⟨x, y, 0, 255⟩⟩

/-- A concrete 4×4 opaque image whose red channel records the source row. -/
def demo4 : Image := ⟨4, 4, fun x y => ⟨y, x, 7, 255⟩⟩

/-- Claim C2, counterexample: the renderer stores cells whose glyph
character IS overridden (with a space), so the very first cell of a 2×2
render has `char = some ' '`, not no glyph character. -/
theorem C2_counterexample :
    ((draw demo2 none).cells.map Cell.char)[0]? = some (some ' ') ∧
    (some ' ' : Option Char) ≠ none := by
  constructor
  · rfl
  · decide

/-- Claim C2 (amended): for every rendered (x, y) position, the renderer
stores at buffer index `y * width + x` a Cell whose glyph character is
overridden with a space (`Some ' '`), whose glyph color is absent, and
whose two block colors are the classifier outputs for the sampled pixel
pair. -/
theorem C2_cell_stored (img : Image) (padding : Option Pad4) (x y : Nat)
    (hx : x < padded_width img.width padding)
    (hy : y < padded_height img.height padding / 2) :
    (draw img padding).cells[y * padded_width img.width padding + x]? =
      some { char := some ' ', char_color := none,
             upper_block := pixel_to_cell_color (sample_pair img padding
               (padded_width img.width padding)
               (padded_height img.height padding) x y).1,
             lower_block := pixel_to_cell_color (sample_pair img padding
               (padded_width img.width padding)
               (padded_height img.height padding) x y).2 } := by
  rw [draw_get img padding x y hx hy]
  rfl

/-- Witness for claim C2's amended theorem at a concrete cell. -/
theorem C2_cell_stored_witness :
    (draw demo2 none).cells[0 * padded_width demo2.width none + 0]? =
      some { char := some ' ', char_color := none,
             upper_block := pixel_to_cell_color (sample_pair demo2 none
               (padded_width demo2.width none)
               (padded_height demo2.height none) 0 0).1,
             lower_block := pixel_to_cell_color (sample_pair demo2 none
               (padded_width demo2.width none)
               (padded_height demo2.height none) 0 0).2 } :=
  C2_cell_stored demo2 none 0 0 (by decide) (by decide)

/-- Claim C4: the output buffer has `W + l + r` columns and
`(H + t + b) / 2` rows (integer division), with zero padding when none is
given, and the cell vector has exactly `columns * rows` entries. -/
theorem C4_buffer_dims (img : Image) (t r b l : Nat) :
    ((draw img (some (t, r, b, l))).width = img.width + l + r ∧
     (draw img (some (t, r, b, l))).height = (img.height + t + b) / 2 ∧
     (draw img (some (t, r, b, l))).cells.length =
       (img.width + l + r) * ((img.height + t + b) / 2)) ∧
    ((draw img none).width = img.width ∧
     (draw img none).height = img.height / 2 ∧
     (draw img none).cells.length = img.width * (img.height / 2)) := by
  refine ⟨⟨rfl, rfl, ?_⟩, rfl, rfl, ?_⟩
  · rw [draw_cells_length]
    rfl
  · rw [draw_cells_length]
    rfl

/-- Claim C5: with padding `(top, right, bottom, left)` both sub-pixels of
the `(x, y)` cell are absent exactly when `2y < top`, or
`2y ≥ height - bottom`, or `x < left`, or `x ≥ width - right` — the single
`2y`-based test `draw` evaluates once per cell and applies to both halves.
Concretely, with padding `(2,0,0,0)` on a 4×4 image, row `y = 0` reports
both halves absent and row `y = 1` samples image rows 0 and 1. -/
theorem C5_padding_guard :
    (∀ (img : Image) (t r b l x y : Nat),
      sample_pair img (some (t, r, b, l)) (img.width + l + r)
          (img.height + t + b) x y = (none, none) ↔
        (y * 2 < t ∨ y * 2 ≥ (img.height + t + b) - b ∨ x < l ∨
          x ≥ (img.width + l + r) - r)) ∧
    (∀ x : Fin 4, sample_pair demo4 (some (2, 0, 0, 0)) 4 6 x.val 0 = (none, none)) ∧
    (∀ x : Fin 4, sample_pair demo4 (some (2, 0, 0, 0)) 4 6 x.val 1 =
      (some (demo4.pix x.val 0), some (demo4.pix x.val 1))) := by
  refine ⟨?_, by decide, by decide⟩
  intro img t r b l x y
  constructor
  · intro h
    by_cases hg : y * 2 < t ∨ y * 2 ≥ (img.height + t + b) - b ∨ x < l ∨
        x ≥ (img.width + l + r) - r
    · exact hg
    · exfalso
      push_neg at hg
      obtain ⟨h1, h2, h3, h4⟩ := hg
      rw [sample_pair_some] at h
      rw [if_neg (by push_neg; exact ⟨h1, h2, h3, h4⟩)] at h
      have hfst := congrArg Prod.fst h
      unfold get_pixel_checked at hfst
      rw [if_pos ⟨by omega, by omega⟩] at hfst
      exact Option.noConfusion hfst
  · intro hg
    rw [sample_pair_some]
    rw [if_pos hg]

/-- Claim C10: under `draw`'s own dimension computation and padding guard,
the buffer write index is in bounds and none of the guarded `u32`
subtractions can underflow. -/
theorem C10_no_panic (img : Image) (padding : Option Pad4) (x y t r b l : Nat) :
    (x < padded_width img.width padding →
      y < padded_height img.height padding / 2 →
      y * padded_width img.width padding + x < (draw img padding).cells.length) ∧
    (padding = some (t, r, b, l) →
      (b ≤ padded_height img.height padding ∧
       r ≤ padded_width img.width padding) ∧
      (¬(y * 2 < t ∨ y * 2 ≥ padded_height img.height padding - b ∨ x < l ∨
          x ≥ padded_width img.width padding - r) →
        l ≤ x ∧ t ≤ y * 2 ∧ t ≤ y * 2 + 1)) := by
  constructor
  · intro hx hy
    rw [draw_cells_length]
    calc y * padded_width img.width padding + x
        < (y + 1) * padded_width img.width padding := by
          have : (y + 1) * padded_width img.width padding =
              y * padded_width img.width padding + padded_width img.width padding := by
            ring
          omega
      _ ≤ (padded_height img.height padding / 2) * padded_width img.width padding :=
          Nat.mul_le_mul_right _ (by omega)
      _ = padded_width img.width padding * (padded_height img.height padding / 2) :=
          Nat.mul_comm _ _
  · intro he
    subst he
    simp only [padded_width, padded_height]
    constructor
    · omega
    · intro hg
      push_neg at hg
      omega

/-- Witness for claim C10 at a concrete image, padding and coordinate. -/
theorem C10_no_panic_witness :
    0 * padded_width demo2.width (some (1, 1, 1, 1)) + 0 <
      (draw demo2 (some (1, 1, 1, 1))).cells.length ∧
    (1 ≤ padded_height demo2.height (some (1, 1, 1, 1)) ∧
     1 ≤ padded_width demo2.width (some (1, 1, 1, 1))) :=
  ⟨(C10_no_panic demo2 (some (1, 1, 1, 1)) 0 0 1 1 1 1).1 (by decide) (by decide),
   ((C10_no_panic demo2 (some (1, 1, 1, 1)) 0 0 1 1 1 1).2 rfl).1⟩

/-- Accumulator pass behind `str::split_whitespace`: maximal runs of
non-whitespace characters, in order, no empty tokens.  `acc` holds the
current run, reversed. -/
def splitWsAcc : List Char → List Char → List (List Char)
  | [], acc => if acc.isEmpty then [] else [acc.reverse]
  | c :: cs, acc =>
    if c.isWhitespace then
      if acc.isEmpty then splitWsAcc cs [] else acc.reverse :: splitWsAcc cs []
    else splitWsAcc cs (c :: acc)

/-- `str::split_whitespace`, collected to a list of tokens.
(`Char.isWhitespace` covers the ASCII whitespace characters; the strings
of interest here contain only digits, signs and spaces.) -/
def splitWs (s : List Char) : List (List Char) := splitWsAcc s []

/-- The optional leading `+` accepted by Rust integer parsing. -/
def strip_plus (s : List Char) : List Char :=
  match s with
  | '+' :: rest => rest
  | _ => s

/-- `u32::from_str`: an optional leading `+`, then one or more ASCII
digits, with a value below `2^32` (Rust reports larger values as an
overflow `ParseIntError`, which `parse_padding` treats like any other
parse failure). -/
def u32_from_str (s : List Char) : Option Nat :=
  let ds := strip_plus s
  if ds.isEmpty then none
  else if ds.all Char.isDigit then
    let v := ds.foldl (fun acc c => acc * 10 + (c.toNat - 48)) 0
    if v < 2 ^ 32 then some v else none
  else none

/-- `Iterator::collect::<Result<Vec<_>, _>>` over the per-token parses:
the first failure makes the whole collection fail. -/
def collect_u32 : List (List Char) → Option (List Nat)
  | [] => some []
  | p :: ps =>
    match u32_from_str p with
    | none => none
    | some v =>
      match collect_u32 ps with
      | none => none
      | some vs => some (v :: vs)

/-- `parse_padding` from `src/main.rs`: split on whitespace, parse every
token as `u32`, then dispatch on the token count following the CSS
shorthand rules.  The two error strings match the source's
`"Invalid input: {}"` and `"Invalid number of values"`. -/
def parse_padding (s : String) : Except String (Nat × Nat × Nat × Nat) :=
  match collect_u32 (splitWs s.data) with
  | none => Except.error ("Invalid input: " ++ s)
  | some vs =>
    match vs with
    | [v] => Except.ok (v, v, v, v)
    | [a, b] => Except.ok (a, b, a, b)
    | [a, b, c] => Except.ok (a, b, c, b)
    | [a, b, c, d] => Except.ok (a, b, c, d)
    | _ => Except.error "Invalid number of values"

/-- Canonical decimal rendering of a natural number, used to state the
claims about numeric token strings. -/
def toDec (n : Nat) : List Char :=
  if h : n < 10 then [Nat.digitChar n]
  else toDec (n / 10) ++ [Nat.digitChar (n % 10)]
decreasing_by exact Nat.div_lt_self (by omega) (by omega)

instance {ε α : Type} [DecidableEq ε] [DecidableEq α] : DecidableEq (Except ε α) :=
  fun x y =>
    match x, y with
    | .ok a, .ok b =>
      if h : a = b then .isTrue (by rw [h]) else .isFalse (fun e => h (Except.ok.inj e))
    | .ok _, .error _ => .isFalse (fun e => Except.noConfusion e)
    | .error _, .ok _ => .isFalse (fun e => Except.noConfusion e)
    | .error u, .error v =>
      if h : u = v then .isTrue (by rw [h]) else .isFalse (fun e => h (Except.error.inj e))

lemma digitChar_isDigit (d : Nat) (h : d < 10) : (Nat.digitChar d).isDigit = true := by
  interval_cases d <;> decide

lemma digitChar_not_ws (d : Nat) (h : d < 10) :
    (Nat.digitChar d).isWhitespace = false := by
  interval_cases d <;> decide

lemma digitChar_val (d : Nat) (h : d < 10) : (Nat.digitChar d).toNat - 48 = d := by
  interval_cases d <;> decide

lemma isDigit_ne_plus (c : Char) (h : c.isDigit = true) : c ≠ '+' := by
  intro e
  subst e
  exact absurd h (by decide)

lemma strip_plus_of_head_ne (c : Char) (cs : List Char) (h : c ≠ '+') :
    strip_plus (c :: cs) = c :: cs := by
  unfold strip_plus
  split
  · next rest heq =>
    injection heq with h1 h2
    exact absurd h1 h
  · rfl

lemma toDec_ne_nil (n : Nat) : toDec n ≠ [] := by
  unfold toDec
  split <;> simp

lemma toDec_all_digit (n : Nat) :
    ∀ c ∈ toDec n, c.isDigit = true ∧ c.isWhitespace = false := by
  induction n using Nat.strong_induction_on with
  | _ n ih =>
    unfold toDec
    split
    · next h =>
      intro c hc
      have : c = Nat.digitChar n := by simpa using hc
      subst this
      exact ⟨digitChar_isDigit n h, digitChar_not_ws n h⟩
    · next h =>
      intro c hc
      rw [List.mem_append] at hc
      cases hc with
      | inl hc => exact ih (n / 10) (Nat.div_lt_self (by omega) (by omega)) c hc
      | inr hc =>
        have : c = Nat.digitChar (n % 10) := by simpa using hc
        subst this
        exact ⟨digitChar_isDigit _ (Nat.mod_lt _ (by omega)),
               digitChar_not_ws _ (Nat.mod_lt _ (by omega))⟩

lemma toDec_foldl (n : Nat) :
    (toDec n).foldl (fun acc c => acc * 10 + (c.toNat - 48)) 0 = n := by
  induction n using Nat.strong_induction_on with
  | _ n ih =>
    unfold toDec
    split
    · next h =>
      simp [digitChar_val n h]
    · next h =>
      rw [List.foldl_append]
      rw [ih (n / 10) (Nat.div_lt_self (by omega) (by omega))]
      simp only [List.foldl_cons, List.foldl_nil]
      rw [digitChar_val (n % 10) (Nat.mod_lt _ (by omega))]
      omega

lemma u32_from_str_toDec (n : Nat) (h : n < 2 ^ 32) :
    u32_from_str (toDec n) = some n := by
  obtain ⟨c, cs, e⟩ := List.exists_cons_of_ne_nil (toDec_ne_nil n)
  have hc : c.isDigit = true :=
    (toDec_all_digit n c (by rw [e]; exact List.mem_cons_self ..)).1
  unfold u32_from_str
  rw [show strip_plus (toDec n) = toDec n by
    rw [e]; exact strip_plus_of_head_ne c cs (isDigit_ne_plus c hc)]
  rw [if_neg (by rw [e]; simp)]
  rw [if_pos (by rw [List.all_eq_true]; exact fun c hc => (toDec_all_digit n c hc).1)]
  rw [toDec_foldl n, if_pos h]

lemma splitWsAcc_append_nonws (tok : List Char)
    (htok : ∀ c ∈ tok, c.isWhitespace = false) :
    ∀ (rest acc : List Char),
      splitWsAcc (tok ++ rest) acc = splitWsAcc rest (tok.reverse ++ acc) := by
  induction tok with
  | nil => intro rest acc; simp
  | cons c t ih =>
    intro rest acc
    have hc : c.isWhitespace = false := htok c (List.mem_cons_self ..)
    simp only [List.cons_append, splitWsAcc, hc, List.append_eq]
    rw [if_neg (by simp)]
    rw [ih (fun c hc => htok c (List.mem_cons_of_mem _ hc)) rest (c :: acc)]
    simp [List.append_assoc]

lemma splitWs_single (tok : List Char) (h1 : tok ≠ [])
    (h2 : ∀ c ∈ tok, c.isWhitespace = false) : splitWs tok = [tok] := by
  unfold splitWs
  have e := splitWsAcc_append_nonws tok h2 [] []
  rw [List.append_nil] at e
  rw [e]
  simp [splitWsAcc, h1]

lemma splitWs_cons (tok rest : List Char) (h1 : tok ≠ [])
    (h2 : ∀ c ∈ tok, c.isWhitespace = false) :
    splitWs (tok ++ ' ' :: rest) = tok :: splitWs rest := by
  unfold splitWs
  rw [splitWsAcc_append_nonws tok h2 (' ' :: rest) []]
  rw [List.append_nil]
  simp [splitWsAcc, h1]

lemma collect_u32_none_iff (ps : List (List Char)) :
    collect_u32 ps = none ↔ ∃ p ∈ ps, u32_from_str p = none := by
  induction ps with
  | nil => simp [collect_u32]
  | cons p ps ih =>
    cases hu : u32_from_str p with
    | none =>
      simp only [collect_u32, hu]
      constructor
      · intro _
        exact ⟨p, List.mem_cons_self .., hu⟩
      · intro _
        trivial
    | some v =>
      cases hc : collect_u32 ps with
      | none =>
        simp only [collect_u32, hu, hc]
        constructor
        · intro _
          obtain ⟨q, hq, hu2⟩ := ih.mp hc
          exact ⟨q, List.mem_cons_of_mem _ hq, hu2⟩
        · intro _
          trivial
      | some vs =>
        simp only [collect_u32, hu, hc]
        constructor
        · intro h
          exact absurd h (by simp)
        · rintro ⟨q, hq, hu2⟩
          rcases List.mem_cons.mp hq with h | h
          · subst h
            rw [hu] at hu2
            exact absurd hu2 (by simp)
          · have h2 := ih.mpr ⟨q, h, hu2⟩
            rw [hc] at h2
            exact absurd h2 (by simp)

lemma collect_u32_length : ∀ (ps : List (List Char)) (vs : List Nat),
    collect_u32 ps = some vs → vs.length = ps.length := by
  intro ps
  induction ps with
  | nil =>
    intro vs h
    simp only [collect_u32] at h
    obtain rfl : ([] : List Nat) = vs := Option.some.inj h
    rfl
  | cons p ps ih =>
    intro vs h
    cases hu : u32_from_str p with
    | none => simp [collect_u32, hu] at h
    | some v =>
      cases hc : collect_u32 ps with
      | none => simp [collect_u32, hu, hc] at h
      | some ws =>
        simp only [collect_u32, hu, hc] at h
        obtain rfl : v :: ws = vs := Option.some.inj h
        simp [ih ws hc]

lemma data_mk (l : List Char) : (String.mk l).data = l := rfl

lemma collect_u32_nil : collect_u32 [] = some [] := rfl

lemma collect_u32_cons (p : List Char) (ps : List (List Char)) (v : Nat)
    (vs : List Nat) (h1 : u32_from_str p = some v)
    (h2 : collect_u32 ps = some vs) :
    collect_u32 (p :: ps) = some (v :: vs) := by
  simp [collect_u32, h1, h2]

/-- Claim C7: `parse_padding` fails with the `Invalid input` parse error
naming the input whenever some whitespace token fails to parse as `u32`,
fails with the `Invalid number of values` arity error whenever all tokens
parse but the token count is outside 1–4, and succeeds otherwise. -/
theorem C7_padding_errors (s : String) :
    ((∃ p ∈ splitWs s.data, u32_from_str p = none) →
      parse_padding s = Except.error ("Invalid input: " ++ s)) ∧
    ((∀ p ∈ splitWs s.data, u32_from_str p ≠ none) →
      ((splitWs s.data).length = 0 ∨ 5 ≤ (splitWs s.data).length) →
      parse_padding s = Except.error "Invalid number of values") ∧
    ((∀ p ∈ splitWs s.data, u32_from_str p ≠ none) →
      1 ≤ (splitWs s.data).length → (splitWs s.data).length ≤ 4 →
      ∃ v, parse_padding s = Except.ok v) := by
  have step : ∀ (hall : ∀ p ∈ splitWs s.data, u32_from_str p ≠ none),
      ∃ vs, collect_u32 (splitWs s.data) = some vs ∧
        vs.length = (splitWs s.data).length := by
    intro hall
    cases hv : collect_u32 (splitWs s.data) with
    | none =>
      obtain ⟨p, hp, hu⟩ := (collect_u32_none_iff _).mp hv
      exact absurd hu (hall p hp)
    | some vs => exact ⟨vs, rfl, collect_u32_length _ _ hv⟩
  refine ⟨?_, ?_, ?_⟩
  · intro h
    unfold parse_padding
    rw [(collect_u32_none_iff _).mpr h]
  · intro hall hlen
    obtain ⟨vs, hvs, hl⟩ := step hall
    unfold parse_padding
    rw [hvs]
    rcases vs with _ | ⟨a, _ | ⟨b, _ | ⟨c, _ | ⟨d, _ | rest⟩⟩⟩⟩
    · rfl
    · simp at hl; omega
    · simp at hl; omega
    · simp at hl; omega
    · simp at hl; omega
    · rfl
  · intro hall h1 h4
    obtain ⟨vs, hvs, hl⟩ := step hall
    unfold parse_padding
    rw [hvs]
    rcases vs with _ | ⟨a, _ | ⟨b, _ | ⟨c, _ | ⟨d, _ | rest⟩⟩⟩⟩
    · simp at hl; omega
    · exact ⟨_, rfl⟩
    · exact ⟨_, rfl⟩
    · exact ⟨_, rfl⟩
    · exact ⟨_, rfl⟩
    · simp at hl; omega

/-- Witness for claim C7: the spec's own example inputs, a non-numeric
token and a five-value string. -/
theorem C7_padding_errors_witness :
    parse_padding "x" = Except.error ("Invalid input: " ++ "x") ∧
    parse_padding "5 5 5 5 5" = Except.error "Invalid number of values" :=
  ⟨(C7_padding_errors "x").1 (by decide),
   (C7_padding_errors "5 5 5 5 5").2.1 (by decide) (by decide)⟩

/-- Claim C6, counterexample: for the non-negative integer `2^32` the
1-token input "4294967296" does not map to the four-sided tuple — `u32`
parsing overflows, so `parse_padding` reports a parse error instead. -/
theorem C6_counterexample :
    toDec (2 ^ 32) = "4294967296".data ∧
    parse_padding "4294967296" =
      Except.error ("Invalid input: " ++ "4294967296") := by
  constructor
  · simp [toDec]
    decide
  · rfl

/-- Claim C6 (amended): for all non-negative integers a, b, c, d below
`2^32` (those representable as `u32`), the padding resolver maps the
1-token input "a" to (a,a,a,a), "a b" to (a,b,a,b), "a b c" to (a,b,c,b)
and "a b c d" to (a,b,c,d), as (top, right, bottom, left). -/
theorem C6_padding_shorthand (a b c d : Nat)
    (ha : a < 2 ^ 32) (hb : b < 2 ^ 32) (hc : c < 2 ^ 32) (hd : d < 2 ^ 32) :
    parse_padding ⟨toDec a⟩ = Except.ok (a, a, a, a) ∧
    parse_padding ⟨toDec a ++ ' ' :: toDec b⟩ = Except.ok (a, b, a, b) ∧
    parse_padding ⟨toDec a ++ ' ' :: (toDec b ++ ' ' :: toDec c)⟩ =
      Except.ok (a, b, c, b) ∧
    parse_padding ⟨toDec a ++ ' ' :: (toDec b ++ ' ' :: (toDec c ++ ' ' :: toDec d))⟩ =
      Except.ok (a, b, c, d) := by
  have hnw : ∀ n : Nat, ∀ ch ∈ toDec n, ch.isWhitespace = false :=
    fun n ch hch => (toDec_all_digit n ch hch).2
  refine ⟨?_, ?_, ?_, ?_⟩
  · unfold parse_padding
    rw [data_mk, splitWs_single (toDec a) (toDec_ne_nil a) (hnw a),
        collect_u32_cons _ _ _ _ (u32_from_str_toDec a ha) collect_u32_nil]
  · unfold parse_padding
    rw [data_mk, splitWs_cons (toDec a) _ (toDec_ne_nil a) (hnw a),
        splitWs_single (toDec b) (toDec_ne_nil b) (hnw b),
        collect_u32_cons _ _ _ _ (u32_from_str_toDec a ha)
          (collect_u32_cons _ _ _ _ (u32_from_str_toDec b hb) collect_u32_nil)]
  · unfold parse_padding
    rw [data_mk, splitWs_cons (toDec a) _ (toDec_ne_nil a) (hnw a),
        splitWs_cons (toDec b) _ (toDec_ne_nil b) (hnw b),
        splitWs_single (toDec c) (toDec_ne_nil c) (hnw c),
        collect_u32_cons _ _ _ _ (u32_from_str_toDec a ha)
          (collect_u32_cons _ _ _ _ (u32_from_str_toDec b hb)
            (collect_u32_cons _ _ _ _ (u32_from_str_toDec c hc) collect_u32_nil))]
  · unfold parse_padding
    rw [data_mk, splitWs_cons (toDec a) _ (toDec_ne_nil a) (hnw a),
        splitWs_cons (toDec b) _ (toDec_ne_nil b) (hnw b),
        splitWs_cons (toDec c) _ (toDec_ne_nil c) (hnw c),
        splitWs_single (toDec d) (toDec_ne_nil d) (hnw d),
        collect_u32_cons _ _ _ _ (u32_from_str_toDec a ha)
          (collect_u32_cons _ _ _ _ (u32_from_str_toDec b hb)
            (collect_u32_cons _ _ _ _ (u32_from_str_toDec c hc)
              (collect_u32_cons _ _ _ _ (u32_from_str_toDec d hd) collect_u32_nil)))]

/-- Witness for claim C6's amended theorem at concrete values. -/
theorem C6_padding_shorthand_witness :
    parse_padding ⟨toDec 1⟩ = Except.ok (1, 1, 1, 1) ∧
    parse_padding ⟨toDec 1 ++ ' ' :: (toDec 2 ++ ' ' :: (toDec 3 ++ ' ' :: toDec 4))⟩ =
      Except.ok (1, 2, 3, 4) :=
  ⟨(C6_padding_shorthand 1 2 3 4 (by norm_num) (by norm_num) (by norm_num)
      (by norm_num)).1,
   (C6_padding_shorthand 1 2 3 4 (by norm_num) (by norm_num) (by norm_num)
      (by norm_num)).2.2.2⟩

/-- The `f32` value of a `u32` dimension (`w as f32`): round-to-nearest-even
onto a 24-bit significand.  Values up to `2^24` are exact; above that, the
number is split as `q * 2^k + r` with `2^23 ≤ q < 2^24` and rounded on `r`. -/
def toF32val (n : Nat) : Nat :=
  if n ≤ 2 ^ 24 then n
  else
    let k := ((List.range 64).find? fun j => n < 2 ^ (24 + j)).getD 64
    let p := 2 ^ k
    let q := n / p
    let r := n % p
    let q2 := if 2 * r > p ∨ (2 * r = p ∧ q % 2 = 1) then q + 1 else q
    q2 * p

/-- Rust `expr as u32` on a nonnegative float value: truncate toward zero
and saturate into `[0, u32::MAX]`. -/
def truncSatU32 (q : ℚ) : Nat :=
  if q < 0 then 0 else min (⌊q⌋.toNat) (2 ^ 32 - 1)

/-- `f64::round` for the nonnegative values that occur here: nearest
integer with ties away from zero, i.e. `⌊q + 1/2⌋`. -/
def roundToNat (q : ℚ) : Nat := (⌊q + 1 / 2⌋).toNat

/-- `resize_dimensions` from the `image` crate (an external collaborator of
`scale_image`): the aspect-ratio-preserving fit of `width × height` into the
requested `nwidth × nheight` box — ratio `min` (or `max` when `fill`) of the
two per-axis ratios, each output dimension `max(round(dim * ratio), 1)`,
clamped to `u32::MAX`.  The crate's `f64` arithmetic is modelled by exact
rational arithmetic; every concrete instance used below is
rounding-error-free in `f64` as well. -/
def resize_dimensions (width height nwidth nheight : Nat) (fill : Bool) :
    Nat × Nat :=
  let wfrac : ℚ := (nwidth : ℚ) / (width : ℚ)
  let hfrac : ℚ := (nheight : ℚ) / (height : ℚ)
  let frac := if fill then max wfrac hfrac else min wfrac hfrac
  let nw := max (roundToNat ((width : ℚ) * frac)) 1
  let nh := max (roundToNat ((height : ℚ) * frac)) 1
  if 2 ^ 32 - 1 < nw then
    (2 ^ 32 - 1, max (roundToNat ((height : ℚ) * (((2 ^ 32 - 1 : Nat) : ℚ) / (width : ℚ)))) 1)
  else if 2 ^ 32 - 1 < nh then
    (max (roundToNat ((width : ℚ) * (((2 ^ 32 - 1 : Nat) : ℚ) / (height : ℚ)))) 1, 2 ^ 32 - 1)
  else (nw, nh)

/-- `DynamicImage::resize` from the `image` crate: unchanged when the
requested box equals the current dimensions, otherwise `resize_exact` at
the `resize_dimensions` fit.  The resampled pixel content (CatmullRom
filter) is outside every claim, so it is modelled as a constant grid; only
the dimensions are specified. -/
def resize (img : Image) (nwidth nheight : Nat) : Image :=
  if nwidth = img.width ∧ nheight = img.height then img
  else
    let d := resize_dimensions img.width img.height nwidth nheight false
    { width := d.1, height := d.2, pix := fun _ _ => ⟨0, 0, 0, 0⟩ }

/-- `scale_image` from `src/main.rs`: request
`(w as f32 * scale) as u32 × (h as f32 * scale) as u32` and delegate to
`resize`.  `scale` is the exact rational value of the `f32` factor, and the
`f32` product is modelled as the exact rational product; the products in
the claims below are exactly representable in `f32`, so no rounding step
is lost there. -/
def scale_image (img : Image) (scale : ℚ) : Image :=
  let nwidth := truncSatU32 ((toF32val img.width : ℚ) * scale)
  let nheight := truncSatU32 ((toF32val img.height : ℚ) * scale)
  resize img nwidth nheight

/-- The scaler's dimension behavior written from the (amended) spec's
words: truncate the `f32` products to get the requested box, then each
output dimension is `max(round(dim * c), 1)` for the common fit ratio
`c = min(tw/W, th/H)` — in particular a zero requested dimension is
replaced by the minimum 1, and the truncated products themselves are only
reproduced when they are in exact proportion. -/
def scaled_dims_spec (W H : Nat) (f : ℚ) : Nat × Nat :=
  let tw := truncSatU32 ((toF32val W : ℚ) * f)
  let th := truncSatU32 ((toF32val H : ℚ) * f)
  let c := min ((tw : ℚ) / (W : ℚ)) ((th : ℚ) / (H : ℚ))
  (max (roundToNat ((W : ℚ) * c)) 1, max (roundToNat ((H : ℚ) * c)) 1)

lemma truncSatU32_le (q : ℚ) : truncSatU32 q ≤ 2 ^ 32 - 1 := by
  unfold truncSatU32
  split
  · exact Nat.zero_le _
  · exact Nat.min_le_right _ _

lemma roundToNat_natCast (n : Nat) : roundToNat (n : ℚ) = n := by
  unfold roundToNat
  have h : ⌊(n : ℚ) + 1 / 2⌋ = (n : ℤ) := by
    rw [Int.floor_eq_iff]
    refine ⟨by push_cast; linarith, by push_cast; linarith⟩
  rw [h]
  omega

lemma round_fit_left (W H tw th : Nat) (hw : 0 < W) (hh : 0 < H) :
    roundToNat ((W : ℚ) * min ((tw : ℚ) / (W : ℚ)) ((th : ℚ) / (H : ℚ))) ≤ tw := by
  have hW0 : (0 : ℚ) < (W : ℚ) := by exact_mod_cast hw
  have hle : (W : ℚ) * min ((tw : ℚ) / (W : ℚ)) ((th : ℚ) / (H : ℚ)) ≤ tw := by
    calc (W : ℚ) * min ((tw : ℚ) / (W : ℚ)) ((th : ℚ) / (H : ℚ))
        ≤ (W : ℚ) * ((tw : ℚ) / (W : ℚ)) :=
          mul_le_mul_of_nonneg_left (min_le_left _ _) (le_of_lt hW0)
      _ = tw := by field_simp
  unfold roundToNat
  have hfl : ⌊(W : ℚ) * min ((tw : ℚ) / (W : ℚ)) ((th : ℚ) / (H : ℚ)) + 1 / 2⌋ <
      (tw : ℤ) + 1 := by
    rw [Int.floor_lt]
    push_cast
    linarith
  exact Int.toNat_le.mpr (by omega)

lemma round_fit_right (W H tw th : Nat) (hw : 0 < W) (hh : 0 < H) :
    roundToNat ((H : ℚ) * min ((tw : ℚ) / (W : ℚ)) ((th : ℚ) / (H : ℚ))) ≤ th := by
  have hH0 : (0 : ℚ) < (H : ℚ) := by exact_mod_cast hh
  have hle : (H : ℚ) * min ((tw : ℚ) / (W : ℚ)) ((th : ℚ) / (H : ℚ)) ≤ th := by
    calc (H : ℚ) * min ((tw : ℚ) / (W : ℚ)) ((th : ℚ) / (H : ℚ))
        ≤ (H : ℚ) * ((th : ℚ) / (H : ℚ)) :=
          mul_le_mul_of_nonneg_left (min_le_right _ _) (le_of_lt hH0)
      _ = th := by field_simp
  unfold roundToNat
  have hfl : ⌊(H : ℚ) * min ((tw : ℚ) / (W : ℚ)) ((th : ℚ) / (H : ℚ)) + 1 / 2⌋ <
      (th : ℤ) + 1 := by
    rw [Int.floor_lt]
    push_cast
    linarith
  exact Int.toNat_le.mpr (by omega)

/-- The dimensions produced by `resize` for an in-range requested box. -/
lemma resize_dims (img : Image) (tw th : Nat) (hw : 0 < img.width)
    (hh : 0 < img.height) (htw : tw ≤ 2 ^ 32 - 1) (hth : th ≤ 2 ^ 32 - 1) :
    ((resize img tw th).width, (resize img tw th).height) =
      (max (roundToNat ((img.width : ℚ) *
         min ((tw : ℚ) / (img.width : ℚ)) ((th : ℚ) / (img.height : ℚ)))) 1,
       max (roundToNat ((img.height : ℚ) *
         min ((tw : ℚ) / (img.width : ℚ)) ((th : ℚ) / (img.height : ℚ)))) 1) := by
  have hWQ : ((img.width : ℚ)) ≠ 0 := Nat.cast_ne_zero.mpr (by omega)
  have hHQ : ((img.height : ℚ)) ≠ 0 := Nat.cast_ne_zero.mpr (by omega)
  by_cases he : tw = img.width ∧ th = img.height
  · obtain ⟨e1, e2⟩ := he
    subst e1
    subst e2
    unfold resize
    rw [if_pos ⟨rfl, rfl⟩]
    rw [div_self hWQ, div_self hHQ, min_self, mul_one, mul_one]
    rw [roundToNat_natCast, roundToNat_natCast]
    rw [Nat.max_eq_left (by omega), Nat.max_eq_left (by omega)]
  · have h1 := round_fit_left img.width img.height tw th hw hh
    have h2 := round_fit_right img.width img.height tw th hw hh
    unfold resize
    rw [if_neg he]
    unfold resize_dimensions
    simp only [Bool.false_eq_true, if_false]
    rw [if_neg (by omega), if_neg (by omega)]

/-- A concrete 1×1 opaque image. -/
def demo1 : Image := ⟨1, 1, fun _ _ => ⟨0, 0, 0, 255⟩⟩

/-- A concrete 7×3 opaque image. -/
def demo73 : Image := ⟨7, 3, fun _ _ => ⟨0, 0, 0, 255⟩⟩

/-- A concrete image one pixel wider than `2^24`. -/
def demoWide : Image := ⟨16777217, 1, fun _ _ => ⟨0, 0, 0, 255⟩⟩

/-- Claim C3, counterexample: scaling the 1×1 image by 0.5 requests the
truncated box 0×0, yet the result is 1×1 — the resampler substitutes a
minimum of 1; and scaling the 7×3 image by 0.5 yields 2×1, not the
truncated products 3×1 — the aspect-preserving fit rounds on the common
ratio instead. -/
theorem C3_counterexample :
    truncSatU32 ((toF32val demo1.width : ℚ) * (1 / 2)) = 0 ∧
    (scale_image demo1 (1 / 2)).width = 1 ∧
    (scale_image demo1 (1 / 2)).height = 1 ∧
    truncSatU32 ((toF32val demo73.width : ℚ) * (1 / 2)) = 3 ∧
    (scale_image demo73 (1 / 2)).width = 2 ∧
    (1 : Nat) ≠ 0 ∧ (2 : Nat) ≠ 3 := by
  refine ⟨?_, ?_, ?_, ?_, ?_, ?_, ?_⟩ <;>
    norm_num [scale_image, resize, resize_dimensions, truncSatU32, roundToNat,
      toF32val, demo1, demo73, min_def] <;>
    (repeat (first | simp | norm_num [min_def]))

/-- Claim C3 (amended): for every nonempty decoded image and positive
factor, the scaler's output dimensions are the aspect-ratio-preserving fit
of the image into the truncated requested box, each dimension clamped to a
minimum of 1 (`scaled_dims_spec`) — not the truncated products themselves. -/
theorem C3_scaler_dims (img : Image) (f : ℚ) (hf : 0 < f)
    (hw : 0 < img.width) (hh : 0 < img.height) :
    ((scale_image img f).width, (scale_image img f).height) =
      scaled_dims_spec img.width img.height f := by
  unfold scale_image scaled_dims_spec
  exact resize_dims img _ _ hw hh (truncSatU32_le _) (truncSatU32_le _)

/-- Witness for claim C3's amended theorem at the 7×3 image and factor 0.5. -/
theorem C3_scaler_dims_witness :
    ((scale_image demo73 (1 / 2)).width, (scale_image demo73 (1 / 2)).height) =
      scaled_dims_spec demo73.width demo73.height (1 / 2) :=
  C3_scaler_dims demo73 (1 / 2) (by norm_num) (by decide) (by decide)

/-- Claim C8, counterexample: a width of `2^24 + 1` is not representable in
`f32`; scaling by exactly 1.0 rounds it to `2^24` and the resize changes
the width. -/
theorem C8_counterexample :
    demoWide.width = 16777217 ∧ (scale_image demoWide 1).width = 16777216 ∧
    (16777216 : Nat) ≠ 16777217 := by
  refine ⟨rfl, ?_, by decide⟩
  · have h1 : toF32val 16777217 = 16777216 := by decide
    have h2 : toF32val 1 = 1 := by decide
    norm_num [scale_image, resize, resize_dimensions, truncSatU32, roundToNat,
      demoWide, h1, h2, min_def]
    repeat (first | simp | norm_num [min_def])

/-- Claim C8 (amended): scaling by a factor of exactly 1.0 is a no-op on
dimensions for every image whose width and height are at most `2^24`
(exactly representable in `f32`). -/
theorem C8_scale_one_noop (img : Image)
    (hw : img.width ≤ 2 ^ 24) (hh : img.height ≤ 2 ^ 24) :
    (scale_image img 1).width = img.width ∧
    (scale_image img 1).height = img.height := by
  have htr : ∀ n : Nat, n ≤ 2 ^ 24 → truncSatU32 ((toF32val n : ℚ) * 1) = n := by
    intro n hn
    unfold toF32val
    rw [if_pos hn]
    unfold truncSatU32
    rw [mul_one]
    rw [if_neg (not_lt.mpr (Nat.cast_nonneg n))]
    rw [Int.floor_natCast]
    omega
  unfold scale_image
  rw [htr _ hw, htr _ hh]
  unfold resize
  rw [if_pos ⟨rfl, rfl⟩]
  exact ⟨rfl, rfl⟩

/-- Witness for claim C8's amended theorem at a concrete image. -/
theorem C8_scale_one_noop_witness :
    (scale_image demo2 1).width = demo2.width ∧
    (scale_image demo2 1).height = demo2.height :=
  C8_scale_one_noop demo2 (by norm_num [demo2]) (by norm_num [demo2])

/-- An observable output of `main`: a rendered (painted) buffer for one
image, or one failure line printed at the end.  The `println!("\n")`
separator after each render is folded into the `rendered` event. -/
inductive Event where
  | rendered (buf : Buffer)
  | errorLine (msg : String)

/-- `get_image` from `src/main.rs`: a path whose `to_str` failed (modelled
as `none`) yields the `Invalid characters in path` error; otherwise
`ImageReader::open` + `decode` run, which are external collaborators and
live behind the `oracle` parameter (its error strings stand for the
source's `Invalid image path: {}` and `Failed to decode image: {}`). -/
def get_image (oracle : String → Except String Image) :
    Option String → Except String Image
  | none => Except.error "Invalid characters in path"
  | some file => oracle file

/-- The per-image scaling step of `main`'s loop:
`if let Some(scale_factor) = cli.scale { image = scale_image(image, …) }`. -/
def apply_scale (scale : Option ℚ) (img : Image) : Image :=
  match scale with
  | some f => scale_image img f
  | none => img

/-- `Result::unwrap` as applied by `main` to the ok partition (the default
is never reached there, which claim C9's theorem makes precise). -/
def okValue : Except String Image → Image
  | .ok v => v
  | .error _ => ⟨0, 0, fun _ _ => ⟨0, 0, 0, 0⟩⟩

/-- `Result::unwrap_err` as applied by `main` to the error partition. -/
def errValue : Except String Image → String
  | .error e => e
  | .ok _ => ""

/-- `main` from `src/main.rs` as the ordered list of its observable
outputs: map `get_image` over the paths, partition into successes and
failures (`partition(Result::is_ok)` preserves relative order on both
sides), render every success in order — scaling first when a factor is
given — and then print every recorded failure. -/
def main_events (oracle : String → Except String Image)
    (paths : List (Option String)) (scale : Option ℚ) (padding : Option Pad4) :
    List Event :=
  let pr := (paths.map (get_image oracle)).partition Except.isOk
  ((pr.1.map okValue).map fun img =>
    Event.rendered (draw (apply_scale scale img) padding)) ++
    (pr.2.map errValue).map Event.errorLine

/-- Claim C9: a failure on one path never prevents processing of the other
paths — the outputs are exactly the renders of the decodable inputs, in
their original relative order, followed by the failure reports of the
non-decodable inputs, in their original relative order, each exactly once. -/
theorem C9_batch_resilience (oracle : String → Except String Image)
    (paths : List (Option String)) (scale : Option ℚ) (padding : Option Pad4) :
    main_events oracle paths scale padding =
      ((paths.filter fun p => (get_image oracle p).isOk).map fun p =>
        Event.rendered (draw (apply_scale scale (okValue (get_image oracle p))) padding)) ++
      ((paths.filter fun p => !(get_image oracle p).isOk).map fun p =>
        Event.errorLine (errValue (get_image oracle p))) := by
  unfold main_events
  rw [List.partition_eq_filter_filter]
  simp only [List.filter_map, List.map_map]
  rfl

end Pixprint
